import Mathlib

/-!
Shallow embedding of the Bharat0908/ledger banking service, for checking the
natural-language specification against the code.

Sources embedded:
- `internal/repo` PGRepo (Postgres balance store): `CreateAccount`,
  `ApplyTransaction`, `ApplyTransfer` over the `accounts` and
  `processed_messages` tables.
- `internal/repo` MongoRepo (Mongo ledger store): `InsertLedger`,
  `InsertTransferLedger`; the collection is modelled as the list of inserted
  documents in insertion order (each Mongo insert creates a fresh document,
  so duplicates accumulate, exactly as `InsertOne` / `InsertMany` behave
  without any unique index — no index is created anywhere in the repository).
- `internal/queue` Consumer.Start: the per-delivery body (classification by
  field presence, apply, ledger write, ack / nack decisions).
- `internal/http/handlers` enqueueTx / enqueueTransfer: intake for
  POST /v1/transactions and POST /v1/transfers after a successful JSON decode,
  with the idempotency-key resolution chain and queue publish.

Modelling conventions:
- Go `int64` amounts and balances are modelled as unbounded `Int`; 64-bit
  overflow wrap-around is not modelled (none of the checked claims is about
  overflow, and every concrete input used fits comfortably in 64 bits).
- UUIDs are opaque strings (the code itself compares them via `.String()`).
- `time.Now()` and generated UUID keys are passed in as explicit parameters.
- Each repository method runs one database transaction with a deferred
  rollback; accordingly each embedded operation returns the committed state
  alongside its result, and every error path returns the unchanged input
  state (the Go code returns before `Commit`, so the deferred `Rollback`
  discards the transaction).
- The row locks (`FOR UPDATE`, lock ordering for transfers) serialize the
  transactions; the embedding gives the resulting sequential semantics, so
  the lock-acquisition order itself has no observable effect here.
-/

deriving instance DecidableEq for Except

/-- A row of the Postgres `accounts` table (the `created_at` column is never
read by the embedded operations and is omitted). -/
structure Account where
  id : String
  owner : String
  currency : String
  balance : Int
deriving DecidableEq, Repr

/-- A row of the Postgres `processed_messages` table (the `processed_at`
column is never read back and is omitted). -/
structure ProcRec where
  idempotency_key : String
  account_id : String
  type : String
  amount : Int
deriving DecidableEq, Repr

/-- The committed state of the Postgres balance store. -/
structure PGState where
  accounts : List Account
  processed : List ProcRec
deriving DecidableEq, Repr

/-- `SELECT balance FROM accounts WHERE id=$1`: the balance of the first row
with the given id, or `none` (pgx `ErrNoRows`) when absent. -/
def lookupBalance (accs : List Account) (accId : String) : Option Int :=
  match accs with
  | [] => none
  | a :: rest => if a.id = accId then some a.balance else lookupBalance rest accId

/-- `UPDATE accounts SET balance=$1 WHERE id=$2`: rewrites the balance of
every row with the given id and leaves the others untouched; when no row
matches, the statement affects zero rows and the table is unchanged. -/
def updateBalance (accs : List Account) (accId : String) (b : Int) : List Account :=
  accs.map (fun a => if a.id = accId then { a with balance := b } else a)

/-- `SELECT idempotency_key FROM processed_messages WHERE idempotency_key=$1`
succeeds exactly when some processed row carries the key. -/
def keyProcessed (s : PGState) (key : String) : Bool :=
  s.processed.any (fun r => r.idempotency_key == key)

/-- PGRepo.CreateAccount: inserts one `accounts` row inside a transaction and
returns the generated id. The id (a fresh UUID in Go) is passed in
explicitly; a primary-key collision rolls the transaction back. -/
def CreateAccount (s : PGState) (accId owner currency : String) (initial : Int) :
    Except String String × PGState :=
  if (lookupBalance s.accounts accId).isSome then
    (.error "pk_violation", s)
  else
    (.ok accId, { s with accounts := s.accounts ++ [⟨accId, owner, currency, initial⟩] })

/-- PGRepo.ApplyTransaction, one database transaction:
probe `processed_messages` for the key — if present, read the current balance
of `accountID` (no lock), commit, and return it; otherwise read the balance
`FOR UPDATE`, branch on `typ` (`deposit` adds, `withdraw` checks funds and
subtracts, anything else is `invalid_type`), update the row and insert the
processed-key record, then commit. Every error path returns before the
commit, so the deferred rollback leaves the store unchanged. -/
def ApplyTransaction (s : PGState) (accountID typ : String) (amount : Int) (key : String) :
    Except String Int × PGState :=
  if keyProcessed s key then
    match lookupBalance s.accounts accountID with
    | none => (.error "no_rows", s)
    | some bal => (.ok bal, s)
  else
    match lookupBalance s.accounts accountID with
    | none => (.error "no_rows", s)
    | some balance =>
      if typ = "deposit" then
        let nb := balance + amount
        (.ok nb, { accounts := updateBalance s.accounts accountID nb,
                   processed := s.processed ++ [⟨key, accountID, typ, amount⟩] })
      else if typ = "withdraw" then
        if balance < amount then
          (.error "insufficient_funds", s)
        else
          let nb := balance - amount
          (.ok nb, { accounts := updateBalance s.accounts accountID nb,
                     processed := s.processed ++ [⟨key, accountID, typ, amount⟩] })
      else
        (.error "invalid_type", s)

/-- PGRepo.ApplyTransfer, one database transaction:
probe `processed_messages` for the key — if present, read both balances and
return them, committing without mutation; otherwise `SELECT ... WHERE id IN
(from,to) FOR UPDATE` fills a map from id to balance (a missing row simply
yields no map entry, and the Go map lookup then defaults to 0), check
`fromBal < amount`, move the amount, issue the two UPDATE statements (a
nonexistent id matches zero rows), insert one processed-key record with
`account = from`, `kind = "transfer"`, and commit. -/
def ApplyTransfer (s : PGState) (fromID toID : String) (amount : Int) (key : String) :
    Except String (Int × Int) × PGState :=
  if keyProcessed s key then
    match lookupBalance s.accounts fromID, lookupBalance s.accounts toID with
    | some fb, some tb => (.ok (fb, tb), s)
    | _, _ => (.error "no_rows", s)
  else
    let fromBal := (lookupBalance s.accounts fromID).getD 0
    let toBal := (lookupBalance s.accounts toID).getD 0
    if fromBal < amount then
      (.error "insufficient_funds", s)
    else
      let fb := fromBal - amount
      let tb := toBal + amount
      (.ok (fb, tb),
        { accounts := updateBalance (updateBalance s.accounts fromID fb) toID tb,
          processed := s.processed ++ [⟨key, fromID, "transfer", amount⟩] })

/-- One document of the Mongo ledger collection, with the fields written by
MongoRepo (Mongo's per-document `_id` is left implicit: the collection is a
list, so equal field tuples inserted twice are still two documents). -/
structure Entry where
  account_id : String
  type : String
  amount : Int
  balance_after : Int
  idempotency_key : String
  created_at : Nat
deriving DecidableEq, Repr

/-- MongoRepo.InsertLedger: `InsertOne` of a single ledger document. -/
def InsertLedger (ledger : List Entry) (accountID typ : String)
    (amount balanceAfter : Int) (key : String) (ts : Nat) : List Entry :=
  ledger ++ [⟨accountID, typ, amount, balanceAfter, key, ts⟩]

/-- MongoRepo.InsertTransferLedger: `InsertMany` of the debit document (amount
negated) for the source and the credit document for the destination, both
carrying the same key and timestamp. -/
def InsertTransferLedger (ledger : List Entry) (fromID toID : String)
    (amount fromAfter toAfter : Int) (key : String) (ts : Nat) : List Entry :=
  ledger ++ [⟨fromID, "transfer_debit", -amount, fromAfter, key, ts⟩,
             ⟨toID, "transfer_credit", amount, toAfter, key, ts⟩]

/-- queue.TxMessage as published and consumed (JSON field names kept). -/
structure TxMessage where
  account_id : String
  type : String
  amount : Int
  idempotency_key : String
  created_at : Nat
deriving DecidableEq, Repr

/-- queue.TransferMessage as published and consumed. -/
structure TransferMessage where
  from_account_id : String
  to_account_id : String
  amount : Int
  idempotency_key : String
  created_at : Nat
deriving DecidableEq, Repr

/-- The combined state the worker touches: the Postgres balance store and the
Mongo ledger collection. -/
structure SysState where
  pg : PGState
  ledger : List Entry
deriving DecidableEq, Repr

/-- The three exits of Consumer.Start for one delivery: `d.Ack(false)`,
`d.Nack(false, true)` (requeue), `d.Nack(false, false)` (no requeue, so the
message goes to the dead-letter sink if one is bound). -/
inductive Outcome where
  | ack
  | nackRequeue
  | nackNoRequeue
deriving DecidableEq, Repr

/-- Consumer.Start, single-account branch: call Applier.Apply
(= PGRepo.ApplyTransaction); on any error `d.Nack(false, true)`; on success
Ledger.Write (= MongoRepo.InsertLedger) with the returned balance and the
message fields, then `d.Ack(false)`. The ledger write is modelled on its
success path (its failure path also nacks with requeue and changes no
embedded state). -/
def processTx (s : SysState) (m : TxMessage) : Outcome × SysState :=
  match ApplyTransaction s.pg m.account_id m.type m.amount m.idempotency_key with
  | (.error _, pg1) => (.nackRequeue, { s with pg := pg1 })
  | (.ok bal, pg1) =>
    (.ack, { pg := pg1,
             ledger := InsertLedger s.ledger m.account_id m.type m.amount bal
                        m.idempotency_key m.created_at })

/-- Consumer.Start, transfer branch: Applier.ApplyTransfer; any error nacks
with requeue; success writes the debit/credit pair and acks. -/
def processTransfer (s : SysState) (t : TransferMessage) : Outcome × SysState :=
  match ApplyTransfer s.pg t.from_account_id t.to_account_id t.amount t.idempotency_key with
  | (.error _, pg1) => (.nackRequeue, { s with pg := pg1 })
  | (.ok (fa, ta), pg1) =>
    (.ack, { pg := pg1,
             ledger := InsertTransferLedger s.ledger t.from_account_id t.to_account_id
                        t.amount fa ta t.idempotency_key t.created_at })

/-- A queue delivery as Consumer.Start sees it after `json.Unmarshal` into
each message struct: absent JSON fields decode to the Go zero value "",
so one record with all candidate fields captures both shapes. -/
structure Delivery where
  account_id : String
  from_account_id : String
  to_account_id : String
  type : String
  amount : Int
  idempotency_key : String
  created_at : Nat
deriving DecidableEq, Repr

/-- Consumer.Start, classification of one delivery by field presence:
`account_id != ""` routes to the single-account branch first; otherwise
`from_account_id != "" && to_account_id != ""` routes to the transfer branch;
anything else is `d.Nack(false, false)`. -/
def processDelivery (s : SysState) (d : Delivery) : Outcome × SysState :=
  if d.account_id ≠ "" then
    processTx s ⟨d.account_id, d.type, d.amount, d.idempotency_key, d.created_at⟩
  else if d.from_account_id ≠ "" ∧ d.to_account_id ≠ "" then
    processTransfer s ⟨d.from_account_id, d.to_account_id, d.amount,
                       d.idempotency_key, d.created_at⟩
  else
    (.nackNoRequeue, s)

/-- Request body of POST /v1/transactions after JSON decoding. -/
structure TxRequest where
  account_id : String
  type : String
  amount : Int
  idempotency_key : String
deriving DecidableEq, Repr

/-- Request body of POST /v1/transfers after JSON decoding. -/
structure TransferRequest where
  from_account_id : String
  to_account_id : String
  amount : Int
  idempotency_key : String
deriving DecidableEq, Repr

/-- Key resolution in enqueueTx / enqueueTransfer: body field, else the
`Idempotency-Key` header, else a freshly generated UUID string. -/
def resolveKey (bodyKey headerKey genKey : String) : String :=
  if bodyKey ≠ "" then bodyKey
  else if headerKey ≠ "" then headerKey
  else genKey

/-- Handlers.enqueueTx after a successful JSON decode and queue publish:
resolves the key, builds the TxMessage verbatim from the body, publishes it,
and answers 202. The handler performs no further checks on the body. The
result is the HTTP status together with the published delivery (`none` would
mean nothing was published; this handler always publishes). -/
def enqueueTx (body : TxRequest) (headerKey genKey : String) (now : Nat) :
    Nat × Option Delivery :=
  let key := resolveKey body.idempotency_key headerKey genKey
  (202, some ⟨body.account_id, "", "", body.type, body.amount, key, now⟩)

/-- Handlers.enqueueTransfer after a successful JSON decode and publish:
same shape, no validation of amount or account ids. -/
def enqueueTransfer (body : TransferRequest) (headerKey genKey : String) (now : Nat) :
    Nat × Option Delivery :=
  let key := resolveKey body.idempotency_key headerKey genKey
  (202, some ⟨"", body.from_account_id, body.to_account_id, "", body.amount, key, now⟩)

/-- Sum of all committed account balances, used to express conservation. -/
def totalBalance (accs : List Account) : Int :=
  (accs.map (fun a => a.balance)).sum

/-- Number of ledger documents carrying a given idempotency key. -/
def countKey (ledger : List Entry) (key : String) : Nat :=
  (ledger.filter (fun e => e.idempotency_key == key)).length

/-! General lemmas about the embedded store operations. -/

/-- Appending a processed row carrying `key` makes `keyProcessed` true. -/
theorem keyProcessed_append (accs : List Account) (procs : List ProcRec)
    (r : ProcRec) (key : String) (h : r.idempotency_key = key) :
    keyProcessed ⟨accs, procs ++ [r]⟩ key = true := by
  simp [keyProcessed, h]

/-- Updating the balance of an existing account makes its looked-up balance
the new value. -/
theorem lookupBalance_updateBalance (accs : List Account) (accId : String) (b : Int)
    (h : (lookupBalance accs accId).isSome) :
    lookupBalance (updateBalance accs accId b) accId = some b := by
  induction accs with
  | nil => simp [lookupBalance] at h
  | cons a rest ih =>
    by_cases hid : a.id = accId
    · simp [lookupBalance, updateBalance, hid]
    · have hh : (lookupBalance rest accId).isSome := by
        simpa [lookupBalance, hid] using h
      simpa [updateBalance, lookupBalance, hid] using ih hh

/-- A looked-up balance is the balance of some account row in the table. -/
theorem lookupBalance_nonneg (accs : List Account) (accId : String) (b : Int)
    (hs : ∀ a ∈ accs, 0 ≤ a.balance) (h : lookupBalance accs accId = some b) :
    0 ≤ b := by
  induction accs with
  | nil => simp [lookupBalance] at h
  | cons a rest ih =>
    rw [lookupBalance] at h
    split at h
    · cases h
      exact hs a (List.mem_cons_self a rest)
    · exact ih (fun x hx => hs x (List.mem_cons_of_mem a hx)) h

/-- The map-default balance read of the transfer path is nonnegative whenever
all stored balances are. -/
theorem lookupBalance_getD_nonneg (accs : List Account) (accId : String)
    (hs : ∀ a ∈ accs, 0 ≤ a.balance) :
    0 ≤ (lookupBalance accs accId).getD 0 := by
  cases hlk : lookupBalance accs accId with
  | none => simp
  | some b => simpa using lookupBalance_nonneg accs accId b hs hlk

/-- Every row of an updated table either carries the written balance or is an
untouched row of the original table. -/
theorem mem_updateBalance (accs : List Account) (accId : String) (b : Int)
    (x : Account) (hx : x ∈ updateBalance accs accId b) :
    x.balance = b ∨ x ∈ accs := by
  unfold updateBalance at hx
  rcases List.mem_map.mp hx with ⟨a, ha, hfa⟩
  by_cases hid : a.id = accId
  · left
    rw [← hfa]
    simp [hid]
  · right
    rw [← hfa]
    simpa [hid] using ha

/-- ApplyTransaction either returns a balance or leaves the committed state
untouched (the Go transaction returns before `Commit`, so the deferred
rollback discards it). -/
theorem ApplyTransaction_error_state (s : PGState) (aid typ : String)
    (amt : Int) (key : String) :
    (∃ b, (ApplyTransaction s aid typ amt key).1 = .ok b) ∨
      (ApplyTransaction s aid typ amt key).2 = s := by
  unfold ApplyTransaction
  split
  · split
    · right; rfl
    · left; exact ⟨_, rfl⟩
  · split
    · right; rfl
    · split
      · left; exact ⟨_, rfl⟩
      · split
        · split
          · right; rfl
          · left; exact ⟨_, rfl⟩
        · right; rfl

/-- ApplyTransfer either returns a balance pair or leaves the committed state
untouched. -/
theorem ApplyTransfer_error_state (s : PGState) (fromID toID : String)
    (amt : Int) (key : String) :
    (∃ p, (ApplyTransfer s fromID toID amt key).1 = .ok p) ∨
      (ApplyTransfer s fromID toID amt key).2 = s := by
  unfold ApplyTransfer
  split
  · split
    · left; exact ⟨_, rfl⟩
    · right; rfl
  · by_cases hlt : (lookupBalance s.accounts fromID).getD 0 < amt
    · right; simp [hlt]
    · left
      refine ⟨((lookupBalance s.accounts fromID).getD 0 - amt,
               (lookupBalance s.accounts toID).getD 0 + amt), ?_⟩
      simp [hlt]

/-! Claim theorems. -/

/-- C7: on the non-replay path, ApplyTransaction returns `b + amount` for a
deposit; for a withdraw it fails with `insufficient_funds` when `b < amount`
and otherwise returns `b - amount`; any other kind fails with `invalid_type`;
and each success commits exactly one new processed-key record
(key, account, kind, amount) in the same transaction that rewrites the
balance. -/
theorem applyTransaction_nonreplay_cases (s : PGState) (aid : String) (amt : Int)
    (key : String) (b : Int)
    (hkey : keyProcessed s key = false)
    (hacc : lookupBalance s.accounts aid = some b) :
    ApplyTransaction s aid "deposit" amt key =
      (.ok (b + amt), ⟨updateBalance s.accounts aid (b + amt),
                       s.processed ++ [⟨key, aid, "deposit", amt⟩]⟩) ∧
    (b < amt → ApplyTransaction s aid "withdraw" amt key =
      (.error "insufficient_funds", s)) ∧
    (amt ≤ b → ApplyTransaction s aid "withdraw" amt key =
      (.ok (b - amt), ⟨updateBalance s.accounts aid (b - amt),
                       s.processed ++ [⟨key, aid, "withdraw", amt⟩]⟩)) ∧
    (∀ typ, typ ≠ "deposit" → typ ≠ "withdraw" →
      ApplyTransaction s aid typ amt key = (.error "invalid_type", s)) := by
  refine ⟨?_, ?_, ?_, ?_⟩
  · simp [ApplyTransaction, hkey, hacc]
  · intro hlt
    simp [ApplyTransaction, hkey, hacc, hlt]
  · intro hle
    simp [ApplyTransaction, hkey, hacc, not_lt.mpr hle]
  · intro typ h1 h2
    simp [ApplyTransaction, hkey, hacc, h1, h2]

/-- C7 witness: a concrete deposit of 12 onto balance 30 with a fresh key. -/
theorem applyTransaction_nonreplay_cases_witness :
    ApplyTransaction ⟨[⟨"w", "o", "USD", 30⟩], []⟩ "w" "deposit" 12 "kw" =
      (.ok (30 + 12), ⟨updateBalance [⟨"w", "o", "USD", 30⟩] "w" (30 + 12),
                       ([] : List ProcRec) ++ [⟨"kw", "w", "deposit", 12⟩]⟩) :=
  (applyTransaction_nonreplay_cases ⟨[⟨"w", "o", "USD", 30⟩], []⟩ "w" 12 "kw" 30
    (by decide) (by decide)).1

/-- C10: the replay branch is selected by the idempotency key alone: whenever
the key is recorded in processed_messages and the passed account id exists
with current balance `b`, ApplyTransaction commits without any mutation and
returns `b` — for every kind and every amount, with no consistency check
against the stored record for the key. -/
theorem applyTransaction_replay_key_only (s : PGState) (aid typ : String)
    (amt : Int) (key : String) (b : Int)
    (hkey : keyProcessed s key = true)
    (hacc : lookupBalance s.accounts aid = some b) :
    ApplyTransaction s aid typ amt key = (.ok b, s) := by
  simp [ApplyTransaction, hkey, hacc]

/-- C10 witness: key "k" was recorded for account a1 as a deposit of 100, yet
a replay naming account a2, kind withdraw, amount 999 returns a2's current
balance with no mutation. -/
theorem applyTransaction_replay_key_only_witness :
    ApplyTransaction ⟨[⟨"a2", "o", "USD", 77⟩], [⟨"k", "a1", "deposit", 100⟩]⟩
        "a2" "withdraw" 999 "k" =
      (.ok 77, ⟨[⟨"a2", "o", "USD", 77⟩], [⟨"k", "a1", "deposit", 100⟩]⟩) :=
  applyTransaction_replay_key_only
    ⟨[⟨"a2", "o", "USD", 77⟩], [⟨"k", "a1", "deposit", 100⟩]⟩
    "a2" "withdraw" 999 "k" 77 (by decide) (by decide)

/-- C9: whenever ApplyTransaction or ApplyTransfer returns an error, the
committed state is exactly the state before the call: no balance and no
processed-key record changes (the enclosing transaction rolls back). -/
theorem apply_error_rolls_back (s : PGState) (aid typ : String) (amt : Int)
    (key e : String) (fromID toID : String) (amt2 : Int) (key2 e2 : String) :
    ((ApplyTransaction s aid typ amt key).1 = .error e →
      (ApplyTransaction s aid typ amt key).2 = s) ∧
    ((ApplyTransfer s fromID toID amt2 key2).1 = .error e2 →
      (ApplyTransfer s fromID toID amt2 key2).2 = s) := by
  constructor
  · intro h
    rcases ApplyTransaction_error_state s aid typ amt key with ⟨b, hb⟩ | hs
    · rw [h] at hb
      exact absurd hb (by simp)
    · exact hs
  · intro h
    rcases ApplyTransfer_error_state s fromID toID amt2 key2 with ⟨p, hp⟩ | hs
    · rw [h] at hp
      exact absurd hp (by simp)
    · exact hs

/-- C9 witness: an overdrawing withdraw and a transfer with insufficient
funds both leave the concrete store exactly as it was. -/
theorem apply_error_rolls_back_witness :
    (ApplyTransaction ⟨[⟨"a", "o", "USD", 3⟩], []⟩ "a" "withdraw" 10 "k9").2 =
      ⟨[⟨"a", "o", "USD", 3⟩], []⟩ ∧
    (ApplyTransfer ⟨[⟨"a", "o", "USD", 3⟩], []⟩ "a" "b" 10 "k9").2 =
      ⟨[⟨"a", "o", "USD", 3⟩], []⟩ :=
  ⟨(apply_error_rolls_back ⟨[⟨"a", "o", "USD", 3⟩], []⟩ "a" "withdraw" 10 "k9"
      "insufficient_funds" "a" "b" 10 "k9" "insufficient_funds").1 (by decide),
   (apply_error_rolls_back ⟨[⟨"a", "o", "USD", 3⟩], []⟩ "a" "withdraw" 10 "k9"
      "insufficient_funds" "a" "b" 10 "k9" "insufficient_funds").2 (by decide)⟩

/-- C5 counterexample: deposit 100 under key k1 returns balance_after 100;
after a second deposit of 50 under key k2 commits, replaying k1 returns 150,
not the 100 returned by the original application. -/
theorem replay_balance_differs_after_interleaving :
    (ApplyTransaction ⟨[⟨"a", "o", "USD", 0⟩], []⟩ "a" "deposit" 100 "k1").1 =
      .ok 100 ∧
    (ApplyTransaction (ApplyTransaction
        (ApplyTransaction ⟨[⟨"a", "o", "USD", 0⟩], []⟩ "a" "deposit" 100 "k1").2
        "a" "deposit" 50 "k2").2 "a" "deposit" 100 "k1").1 = .ok 150 ∧
    (150 : Int) ≠ 100 := by
  refine ⟨by decide, by decide, by decide⟩

/-- After a successful non-replay ApplyTransaction, the committed state has
the idempotency key recorded and the account's stored balance equal to the
returned balance_after. -/
theorem applyTransaction_ok_state (s : PGState) (aid typ : String)
    (amt : Int) (key : String) (bal : Int)
    (hkey : keyProcessed s key = false)
    (h : (ApplyTransaction s aid typ amt key).1 = .ok bal) :
    keyProcessed (ApplyTransaction s aid typ amt key).2 key = true ∧
    lookupBalance (ApplyTransaction s aid typ amt key).2.accounts aid = some bal := by
  rcases hlk : lookupBalance s.accounts aid with _ | b
  · simp [ApplyTransaction, hkey, hlk] at h
  · by_cases ht1 : typ = "deposit"
    · subst ht1
      have h1 : ApplyTransaction s aid "deposit" amt key =
          (.ok (b + amt), ⟨updateBalance s.accounts aid (b + amt),
                           s.processed ++ [⟨key, aid, "deposit", amt⟩]⟩) := by
        simp [ApplyTransaction, hkey, hlk]
      rw [h1] at h ⊢
      simp only [] at h ⊢
      cases h
      have hkey2 : keyProcessed ⟨updateBalance s.accounts aid (b + amt),
          s.processed ++ [⟨key, aid, "deposit", amt⟩]⟩ key = true :=
        keyProcessed_append _ _ _ _ rfl
      have hlk2 : lookupBalance (updateBalance s.accounts aid (b + amt)) aid =
          some (b + amt) :=
        lookupBalance_updateBalance s.accounts aid (b + amt) (by simp [hlk])
      exact ⟨hkey2, hlk2⟩
    · by_cases ht2 : typ = "withdraw"
      · subst ht2
        by_cases hlt : b < amt
        · simp [ApplyTransaction, hkey, hlk, hlt] at h
        · have h1 : ApplyTransaction s aid "withdraw" amt key =
              (.ok (b - amt), ⟨updateBalance s.accounts aid (b - amt),
                               s.processed ++ [⟨key, aid, "withdraw", amt⟩]⟩) := by
            simp [ApplyTransaction, hkey, hlk, hlt]
          rw [h1] at h ⊢
          simp only [] at h ⊢
          cases h
          have hkey2 : keyProcessed ⟨updateBalance s.accounts aid (b - amt),
              s.processed ++ [⟨key, aid, "withdraw", amt⟩]⟩ key = true :=
            keyProcessed_append _ _ _ _ rfl
          have hlk2 : lookupBalance (updateBalance s.accounts aid (b - amt)) aid =
              some (b - amt) :=
            lookupBalance_updateBalance s.accounts aid (b - amt) (by simp [hlk])
          exact ⟨hkey2, hlk2⟩
      · simp [ApplyTransaction, hkey, hlk, ht1, ht2] at h

/-- C1: processing the same deposit message twice through the worker pipeline
acks both times and leaves the balance at its once-processed value, but the
ledger collection holds two documents for the key instead of the one that a
single processing produces: MongoRepo.InsertLedger is a plain InsertOne with
no unique index or upsert, so the replayed delivery appends a duplicate. -/
theorem reprocessing_tx_duplicates_ledger_document :
    (processTx ⟨⟨[⟨"a", "alice", "USD", 100⟩], []⟩, []⟩
      ⟨"a", "deposit", 50, "k1", 7⟩).1 = Outcome.ack ∧
    (processTx (processTx ⟨⟨[⟨"a", "alice", "USD", 100⟩], []⟩, []⟩
      ⟨"a", "deposit", 50, "k1", 7⟩).2 ⟨"a", "deposit", 50, "k1", 7⟩).1 = Outcome.ack ∧
    lookupBalance ((processTx ⟨⟨[⟨"a", "alice", "USD", 100⟩], []⟩, []⟩
      ⟨"a", "deposit", 50, "k1", 7⟩).2).pg.accounts "a" = some 150 ∧
    lookupBalance ((processTx (processTx ⟨⟨[⟨"a", "alice", "USD", 100⟩], []⟩, []⟩
      ⟨"a", "deposit", 50, "k1", 7⟩).2 ⟨"a", "deposit", 50, "k1", 7⟩).2).pg.accounts "a" =
      some 150 ∧
    countKey ((processTx ⟨⟨[⟨"a", "alice", "USD", 100⟩], []⟩, []⟩
      ⟨"a", "deposit", 50, "k1", 7⟩).2).ledger "k1" = 1 ∧
    countKey ((processTx (processTx ⟨⟨[⟨"a", "alice", "USD", 100⟩], []⟩, []⟩
      ⟨"a", "deposit", 50, "k1", 7⟩).2 ⟨"a", "deposit", 50, "k1", 7⟩).2).ledger "k1" = 2 := by
  refine ⟨by decide, by decide, by decide, by decide, by decide, by decide⟩

/-- C2: the worker nacks every B-adapter apply error with requeue=true —
including the permanent errors insufficient_funds and invalid_type — so a
withdraw exceeding the balance is redelivered instead of going to the
dead-letter queue; the only nack without requeue in Consumer.Start is the
unknown-payload branch. Concretely, withdrawing 10000 from balance 1100 is
requeued, and the single-account branch can never dead-letter. -/
theorem permanent_apply_errors_are_requeued :
    (processTx ⟨⟨[⟨"a", "alice", "USD", 1100⟩], []⟩, []⟩
      ⟨"a", "withdraw", 10000, "k2", 5⟩).1 = Outcome.nackRequeue ∧
    (processTx ⟨⟨[⟨"a", "alice", "USD", 1100⟩], []⟩, []⟩
      ⟨"a", "frobnicate", 5, "k2b", 5⟩).1 = Outcome.nackRequeue ∧
    (∀ (s : SysState) (m : TxMessage),
      (processTx s m).1 = Outcome.ack ∨ (processTx s m).1 = Outcome.nackRequeue) := by
  refine ⟨by decide, by decide, ?_⟩
  intro s m
  unfold processTx
  rcases h : ApplyTransaction s.pg m.account_id m.type m.amount m.idempotency_key with
    ⟨r, pg1⟩
  cases r
  · right; rfl
  · left; rfl

/-- C3: ApplyTransfer commits successfully on the non-replay path even when
the destination account does not exist: the source account is debited, the
UPDATE on the destination matches zero rows, and the sum of balances drops by
the transferred amount — money is destroyed, violating conservation. -/
theorem transfer_to_missing_account_destroys_money :
    (ApplyTransfer ⟨[⟨"A", "alice", "USD", 100⟩], []⟩ "A" "missing" 40 "t3").1 =
      .ok (60, 40) ∧
    ((ApplyTransfer ⟨[⟨"A", "alice", "USD", 100⟩], []⟩ "A" "missing" 40 "t3").2).accounts =
      [⟨"A", "alice", "USD", 60⟩] ∧
    ((ApplyTransfer ⟨[⟨"A", "alice", "USD", 100⟩], []⟩ "A" "missing" 40 "t3").2).processed =
      [⟨"t3", "A", "transfer", 40⟩] ∧
    totalBalance ((ApplyTransfer ⟨[⟨"A", "alice", "USD", 100⟩], []⟩
      "A" "missing" 40 "t3").2).accounts =
      totalBalance [⟨"A", "alice", "USD", 100⟩] - 40 := by
  refine ⟨by decide, by decide, by decide, by decide⟩

/-- C8: a transfer delivered twice (redelivery or client resubmission with
the same key) acks both times, but the second processing appends a second
debit/credit pair: the ledger then holds four entries for the key, not the
exactly zero or exactly two the pairing invariant allows. -/
theorem redelivered_transfer_quadruples_ledger_pair :
    (processTransfer ⟨⟨[⟨"A", "o", "USD", 1000⟩, ⟨"B", "p", "USD", 0⟩], []⟩, []⟩
      ⟨"A", "B", 500, "t1", 9⟩).1 = Outcome.ack ∧
    countKey ((processTransfer ⟨⟨[⟨"A", "o", "USD", 1000⟩, ⟨"B", "p", "USD", 0⟩], []⟩, []⟩
      ⟨"A", "B", 500, "t1", 9⟩).2).ledger "t1" = 2 ∧
    (processTransfer (processTransfer
      ⟨⟨[⟨"A", "o", "USD", 1000⟩, ⟨"B", "p", "USD", 0⟩], []⟩, []⟩
      ⟨"A", "B", 500, "t1", 9⟩).2 ⟨"A", "B", 500, "t1", 9⟩).1 = Outcome.ack ∧
    countKey ((processTransfer (processTransfer
      ⟨⟨[⟨"A", "o", "USD", 1000⟩, ⟨"B", "p", "USD", 0⟩], []⟩, []⟩
      ⟨"A", "B", 500, "t1", 9⟩).2 ⟨"A", "B", 500, "t1", 9⟩).2).ledger "t1" = 4 := by
  refine ⟨by decide, by decide, by decide, by decide⟩

/-- C6: intake performs no validation beyond JSON decoding: a transaction
with a negative amount, a transaction with an unknown type, and a transfer
whose source equals its destination are all answered 202 and published on
the queue verbatim. -/
theorem intake_publishes_invalid_requests :
    enqueueTx ⟨"a", "deposit", -5, "k6"⟩ "" "g" 3 =
      (202, some ⟨"a", "", "", "deposit", -5, "k6", 3⟩) ∧
    enqueueTx ⟨"a", "frobnicate", 10, "k6b"⟩ "" "g" 3 =
      (202, some ⟨"a", "", "", "frobnicate", 10, "k6b", 3⟩) ∧
    enqueueTransfer ⟨"x", "x", -5, "k6c"⟩ "" "g" 3 =
      (202, some ⟨"", "x", "x", "", -5, "k6c", 3⟩) := by
  refine ⟨by decide, by decide, by decide⟩

/-- An operation of the pipeline as the worker commits it: a synchronous
account creation at intake, or a queued single-account transaction or
transfer applied by the consumer. -/
inductive Op where
  | create (accId owner currency : String) (initial : Int)
  | tx (m : TxMessage)
  | transfer (t : TransferMessage)
deriving DecidableEq, Repr

/-- One committed step of the system. -/
def stepOp (s : SysState) (op : Op) : SysState :=
  match op with
  | .create accId owner currency initial =>
    { s with pg := (CreateAccount s.pg accId owner currency initial).2 }
  | .tx m => (processTx s m).2
  | .transfer t => (processTransfer s t).2

/-- The input constraints the spec assigns to intake: nonnegative opening
balance, positive transaction and transfer amounts. -/
def ValidOp : Op → Prop
  | .create _ _ _ initial => 0 ≤ initial
  | .tx m => 0 < m.amount
  | .transfer t => 0 < t.amount

instance (op : Op) : Decidable (ValidOp op) :=
  match op with
  | .create _ _ _ initial => inferInstanceAs (Decidable (0 ≤ initial))
  | .tx m => inferInstanceAs (Decidable (0 < m.amount))
  | .transfer t => inferInstanceAs (Decidable (0 < t.amount))

/-- The empty system state (fresh stores). -/
def initialSys : SysState := ⟨⟨[], []⟩, []⟩

/-- Running a sequence of committed operations from the fresh state. -/
def runOps (ops : List Op) : SysState := ops.foldl stepOp initialSys

/-- ApplyTransaction keeps all balances nonnegative when the amount is
positive. -/
theorem ApplyTransaction_preserves_nonneg (s : PGState) (aid typ : String)
    (amt : Int) (key : String) (hamt : 0 < amt)
    (hs : ∀ a ∈ s.accounts, 0 ≤ a.balance) :
    ∀ a ∈ (ApplyTransaction s aid typ amt key).2.accounts, 0 ≤ a.balance := by
  unfold ApplyTransaction
  split
  · split
    · exact hs
    · exact hs
  · split
    · exact hs
    · rename_i balance heq
      have hb : 0 ≤ balance := lookupBalance_nonneg s.accounts aid balance hs heq
      split
      · intro x hx
        rcases mem_updateBalance s.accounts aid (balance + amt) x hx with hxb | hmem
        · rw [hxb]
          exact add_nonneg hb (le_of_lt hamt)
        · exact hs x hmem
      · split
        · split
          · exact hs
          · rename_i hnlt
            intro x hx
            rcases mem_updateBalance s.accounts aid (balance - amt) x hx with hxb | hmem
            · rw [hxb]
              exact sub_nonneg.mpr (le_of_not_lt hnlt)
            · exact hs x hmem
        · exact hs

/-- ApplyTransfer keeps all balances nonnegative when the amount is
positive. -/
theorem ApplyTransfer_preserves_nonneg (s : PGState) (fromID toID : String)
    (amt : Int) (key : String) (hamt : 0 < amt)
    (hs : ∀ a ∈ s.accounts, 0 ≤ a.balance) :
    ∀ a ∈ (ApplyTransfer s fromID toID amt key).2.accounts, 0 ≤ a.balance := by
  unfold ApplyTransfer
  split
  · split
    · exact hs
    · exact hs
  · by_cases hlt : (lookupBalance s.accounts fromID).getD 0 < amt
    · simpa [hlt] using hs
    · have hfrom : 0 ≤ (lookupBalance s.accounts fromID).getD 0 - amt :=
        sub_nonneg.mpr (le_of_not_lt hlt)
      have hto : 0 ≤ (lookupBalance s.accounts toID).getD 0 + amt :=
        add_nonneg (lookupBalance_getD_nonneg s.accounts toID hs) (le_of_lt hamt)
      simp only [hlt, if_false]
      intro x hx
      rcases mem_updateBalance _ toID _ x hx with hxb | hmem
      · rw [hxb]
        exact hto
      · rcases mem_updateBalance _ fromID _ x hmem with hxb2 | hmem2
        · rw [hxb2]
          exact hfrom
        · exact hs x hmem2

/-- Each validated committed step keeps all balances nonnegative. -/
theorem stepOp_preserves_nonneg (s : SysState) (op : Op) (hval : ValidOp op)
    (hs : ∀ a ∈ s.pg.accounts, 0 ≤ a.balance) :
    ∀ a ∈ (stepOp s op).pg.accounts, 0 ≤ a.balance := by
  cases op with
  | create accId owner currency initial =>
    simp only [stepOp, CreateAccount]
    split
    · simpa using hs
    · intro x hx
      simp only [List.mem_append, List.mem_singleton] at hx
      rcases hx with hmem | hxeq
      · exact hs x hmem
      · rw [hxeq]
        exact hval
  | tx m =>
    have hmain := ApplyTransaction_preserves_nonneg s.pg m.account_id m.type m.amount
      m.idempotency_key hval hs
    rcases h : ApplyTransaction s.pg m.account_id m.type m.amount m.idempotency_key with
      ⟨r, pg1⟩
    rw [h] at hmain
    cases r with
    | error e => simpa [stepOp, processTx, h] using hmain
    | ok bal => simpa [stepOp, processTx, h] using hmain
  | transfer t =>
    have hmain := ApplyTransfer_preserves_nonneg s.pg t.from_account_id t.to_account_id
      t.amount t.idempotency_key hval hs
    rcases h : ApplyTransfer s.pg t.from_account_id t.to_account_id t.amount
      t.idempotency_key with ⟨r, pg1⟩
    rw [h] at hmain
    cases r with
    | error e => simpa [stepOp, processTransfer, h] using hmain
    | ok p =>
      cases p
      simpa [stepOp, processTransfer, h] using hmain

/-- C4 counterexample: intake accepts a deposit of amount -500 (it answers
202 and publishes the message unchanged), the worker applies it, and the
account committed at balance 100 ends at balance -400 < 0. -/
theorem intake_accepted_negative_deposit_breaks_nonnegativity :
    (enqueueTx ⟨"a", "deposit", -500, "kneg"⟩ "" "gen" 0).1 = 202 ∧
    (enqueueTx ⟨"a", "deposit", -500, "kneg"⟩ "" "gen" 0).2 =
      some ⟨"a", "", "", "deposit", -500, "kneg", 0⟩ ∧
    (processDelivery ⟨⟨[⟨"a", "o", "USD", 100⟩], []⟩, []⟩
      ⟨"a", "", "", "deposit", -500, "kneg", 0⟩).1 = Outcome.ack ∧
    lookupBalance ((processDelivery ⟨⟨[⟨"a", "o", "USD", 100⟩], []⟩, []⟩
      ⟨"a", "", "", "deposit", -500, "kneg", 0⟩).2).pg.accounts "a" = some (-400) ∧
    ¬ (0 : Int) ≤ -400 := by
  refine ⟨by decide, by decide, by decide, by decide, by decide⟩

/-- C4 amended: if every committed operation satisfies the input constraints
the spec assigns to intake — create with initial_balance ≥ 0, transactions
and transfers with amount > 0 — then after any sequence of committed
operations every account balance is ≥ 0 (64-bit overflow not modelled). -/
theorem runOps_balances_nonneg (ops : List Op) (h : ∀ op ∈ ops, ValidOp op) :
    ∀ a ∈ (runOps ops).pg.accounts, 0 ≤ a.balance := by
  suffices H : ∀ (l : List Op) (s : SysState),
      (∀ a ∈ s.pg.accounts, 0 ≤ a.balance) → (∀ op ∈ l, ValidOp op) →
      ∀ a ∈ (l.foldl stepOp s).pg.accounts, 0 ≤ a.balance by
    exact H ops initialSys (by simp [initialSys]) h
  intro l
  induction l with
  | nil =>
    intro s hs _
    simpa using hs
  | cons op rest ih =>
    intro s hs hv
    simp only [List.foldl_cons]
    exact ih (stepOp s op)
      (stepOp_preserves_nonneg s op (hv op (List.mem_cons_self op rest)) hs)
      (fun o ho => hv o (List.mem_cons_of_mem op ho))

/-- C4 amended witness: the spec's scenario — create two accounts, deposit,
withdraw, transfer, all validated — ends with account A committed at 600,
which is nonnegative. -/
theorem runOps_balances_nonneg_witness :
    (0 : Int) ≤ (Account.mk "A" "o" "USD" 600).balance :=
  runOps_balances_nonneg
    [.create "A" "o" "USD" 1000, .create "B" "p" "USD" 0,
     .tx ⟨"A", "deposit", 200, "c1", 1⟩, .tx ⟨"A", "withdraw", 100, "c2", 2⟩,
     .transfer ⟨"A", "B", 500, "c3", 3⟩]
    (by decide) (Account.mk "A" "o" "USD" 600) (by decide)

/-- Updating the balance of a different account id leaves an account's
looked-up balance unchanged. -/
theorem lookupBalance_updateBalance_ne (accs : List Account) (accId aid : String)
    (b : Int) (hne : accId ≠ aid) :
    lookupBalance (updateBalance accs accId b) aid = lookupBalance accs aid := by
  induction accs with
  | nil => rfl
  | cons a rest ih =>
    by_cases hid : a.id = accId
    · simpa [updateBalance, lookupBalance, hid, hne, Ne.symm hne] using ih
    · by_cases haid : a.id = aid
      · simp [updateBalance, lookupBalance, hid, haid, Ne.symm hne]
      · simpa [updateBalance, lookupBalance, hid, haid] using ih

/-- Appending a row with a different id leaves an account's looked-up balance
unchanged. -/
theorem lookupBalance_append_single_ne (accs : List Account) (acc : Account)
    (aid : String) (h : acc.id ≠ aid) :
    lookupBalance (accs ++ [acc]) aid = lookupBalance accs aid := by
  induction accs with
  | nil => simp [lookupBalance, h]
  | cons a rest ih =>
    by_cases haid : a.id = aid
    · simp [lookupBalance, haid]
    · simpa [lookupBalance, haid] using ih

/-- ApplyTransaction only ever appends to the processed-key table. -/
theorem ApplyTransaction_processed_extends (s : PGState) (accId typ : String)
    (amt : Int) (key : String) :
    ∃ l, (ApplyTransaction s accId typ amt key).2.processed = s.processed ++ l := by
  unfold ApplyTransaction
  split
  · split
    · exact ⟨[], by simp⟩
    · exact ⟨[], by simp⟩
  · split
    · exact ⟨[], by simp⟩
    · split
      · exact ⟨_, rfl⟩
      · split
        · split
          · exact ⟨[], by simp⟩
          · exact ⟨_, rfl⟩
        · exact ⟨[], by simp⟩

/-- ApplyTransfer only ever appends to the processed-key table. -/
theorem ApplyTransfer_processed_extends (s : PGState) (fromID toID : String)
    (amt : Int) (key : String) :
    ∃ l, (ApplyTransfer s fromID toID amt key).2.processed = s.processed ++ l := by
  unfold ApplyTransfer
  split
  · split
    · exact ⟨[], by simp⟩
    · exact ⟨[], by simp⟩
  · by_cases hlt : (lookupBalance s.accounts fromID).getD 0 < amt
    · exact ⟨[], by simp [hlt]⟩
    · exact ⟨[⟨key, fromID, "transfer", amt⟩], by simp [hlt]⟩

/-- ApplyTransaction on a different account id leaves an account's committed
balance unchanged, whatever its outcome. -/
theorem ApplyTransaction_lookup_other (s : PGState) (accId typ : String)
    (amt : Int) (key : String) (aid : String) (hne : accId ≠ aid) :
    lookupBalance (ApplyTransaction s accId typ amt key).2.accounts aid =
      lookupBalance s.accounts aid := by
  unfold ApplyTransaction
  split
  · split
    · rfl
    · rfl
  · split
    · rfl
    · split
      · exact lookupBalance_updateBalance_ne s.accounts accId aid _ hne
      · split
        · split
          · rfl
          · exact lookupBalance_updateBalance_ne s.accounts accId aid _ hne
        · rfl

/-- ApplyTransfer between two other accounts leaves an account's committed
balance unchanged, whatever its outcome. -/
theorem ApplyTransfer_lookup_other (s : PGState) (fromID toID : String)
    (amt : Int) (key : String) (aid : String)
    (hfrom : fromID ≠ aid) (hto : toID ≠ aid) :
    lookupBalance (ApplyTransfer s fromID toID amt key).2.accounts aid =
      lookupBalance s.accounts aid := by
  unfold ApplyTransfer
  split
  · split
    · rfl
    · rfl
  · by_cases hlt : (lookupBalance s.accounts fromID).getD 0 < amt
    · simp [hlt]
    · simp only [hlt, if_false]
      rw [lookupBalance_updateBalance_ne _ toID aid _ hto,
          lookupBalance_updateBalance_ne _ fromID aid _ hfrom]

/-- An operation names (touches) an account: a create of that id, a
transaction on it, or a transfer with it as source or destination. -/
def OpTouches : Op → String → Prop
  | .create accId _ _ _, aid => accId = aid
  | .tx m, aid => m.account_id = aid
  | .transfer t, aid => t.from_account_id = aid ∨ t.to_account_id = aid

instance (op : Op) (aid : String) : Decidable (OpTouches op aid) :=
  match op with
  | .create accId _ _ _ => inferInstanceAs (Decidable (accId = aid))
  | .tx m => inferInstanceAs (Decidable (m.account_id = aid))
  | .transfer t =>
    inferInstanceAs (Decidable (t.from_account_id = aid ∨ t.to_account_id = aid))

/-- No committed step ever removes a recorded idempotency key. -/
theorem stepOp_keyProcessed_mono (s : SysState) (op : Op) (key : String)
    (hkey : keyProcessed s.pg key = true) :
    keyProcessed (stepOp s op).pg key = true := by
  cases op with
  | create accId owner currency initial =>
    simp only [stepOp, CreateAccount]
    split
    · exact hkey
    · exact hkey
  | tx m =>
    obtain ⟨l, hl⟩ := ApplyTransaction_processed_extends s.pg m.account_id m.type
      m.amount m.idempotency_key
    rcases hres : ApplyTransaction s.pg m.account_id m.type m.amount
      m.idempotency_key with ⟨r, pg1⟩
    rw [hres] at hl
    have hl2 : pg1.processed = s.pg.processed ++ l := hl
    have hk2 : s.pg.processed.any (fun r => r.idempotency_key == key) = true := hkey
    have hkp : keyProcessed pg1 key = true := by
      show pg1.processed.any (fun r => r.idempotency_key == key) = true
      rw [hl2, List.any_append, hk2]
      rfl
    cases r with
    | error e => simpa [stepOp, processTx, hres] using hkp
    | ok bal => simpa [stepOp, processTx, hres] using hkp
  | transfer t =>
    obtain ⟨l, hl⟩ := ApplyTransfer_processed_extends s.pg t.from_account_id
      t.to_account_id t.amount t.idempotency_key
    rcases hres : ApplyTransfer s.pg t.from_account_id t.to_account_id t.amount
      t.idempotency_key with ⟨r, pg1⟩
    rw [hres] at hl
    have hl2 : pg1.processed = s.pg.processed ++ l := hl
    have hk2 : s.pg.processed.any (fun r => r.idempotency_key == key) = true := hkey
    have hkp : keyProcessed pg1 key = true := by
      show pg1.processed.any (fun r => r.idempotency_key == key) = true
      rw [hl2, List.any_append, hk2]
      rfl
    cases r with
    | error e => simpa [stepOp, processTransfer, hres] using hkp
    | ok p =>
      cases p
      simpa [stepOp, processTransfer, hres] using hkp

/-- A committed step that does not name an account leaves that account's
balance unchanged. -/
theorem stepOp_balance_untouched (s : SysState) (op : Op) (aid : String)
    (hop : ¬ OpTouches op aid) :
    lookupBalance (stepOp s op).pg.accounts aid = lookupBalance s.pg.accounts aid := by
  cases op with
  | create accId owner currency initial =>
    have hne : accId ≠ aid := hop
    simp only [stepOp, CreateAccount]
    split
    · rfl
    · exact lookupBalance_append_single_ne s.pg.accounts
        ⟨accId, owner, currency, initial⟩ aid hne
  | tx m =>
    have hne : m.account_id ≠ aid := hop
    have hmain := ApplyTransaction_lookup_other s.pg m.account_id m.type m.amount
      m.idempotency_key aid hne
    rcases hres : ApplyTransaction s.pg m.account_id m.type m.amount
      m.idempotency_key with ⟨r, pg1⟩
    rw [hres] at hmain
    cases r with
    | error e => simpa [stepOp, processTx, hres] using hmain
    | ok bal => simpa [stepOp, processTx, hres] using hmain
  | transfer t =>
    have hne1 : t.from_account_id ≠ aid := fun hh => hop (Or.inl hh)
    have hne2 : t.to_account_id ≠ aid := fun hh => hop (Or.inr hh)
    have hmain := ApplyTransfer_lookup_other s.pg t.from_account_id t.to_account_id
      t.amount t.idempotency_key aid hne1 hne2
    rcases hres : ApplyTransfer s.pg t.from_account_id t.to_account_id t.amount
      t.idempotency_key with ⟨r, pg1⟩
    rw [hres] at hmain
    cases r with
    | error e => simpa [stepOp, processTransfer, hres] using hmain
    | ok p =>
      cases p
      simpa [stepOp, processTransfer, hres] using hmain

/-- Folding any sequence of committed operations that do not name an account
leaves that account's balance unchanged and keeps every recorded key
recorded. -/
theorem foldl_untouched (ops : List Op) (s : SysState) (aid key : String)
    (hops : ∀ op ∈ ops, ¬ OpTouches op aid)
    (hkey : keyProcessed s.pg key = true) :
    lookupBalance ((ops.foldl stepOp s)).pg.accounts aid =
      lookupBalance s.pg.accounts aid ∧
    keyProcessed ((ops.foldl stepOp s)).pg key = true := by
  induction ops generalizing s with
  | nil => exact ⟨rfl, hkey⟩
  | cons op rest ih =>
    simp only [List.foldl_cons]
    have h1 := stepOp_balance_untouched s op aid (hops op (List.mem_cons_self op rest))
    have h2 := stepOp_keyProcessed_mono s op key hkey
    have hrest := ih (stepOp s op) (fun o ho => hops o (List.mem_cons_of_mem op ho)) h2
    exact ⟨hrest.1.trans h1, hrest.2⟩

/-- C5 amended: the replay path returns the account's current balance at
replay time; whenever every operation committed between the original
non-replay application and the replay is on other accounts (creates,
transactions, and transfers that do not name the account), that current
balance is still the original balance_after, so the replay returns exactly
what the original application returned, committing without mutation. -/
theorem replay_returns_original_without_intervening_ops_on_account
    (s : SysState) (aid typ : String) (amt : Int) (key : String) (bal : Int)
    (ops : List Op)
    (hkey : keyProcessed s.pg key = false)
    (h : (ApplyTransaction s.pg aid typ amt key).1 = .ok bal)
    (hops : ∀ op ∈ ops, ¬ OpTouches op aid) :
    ApplyTransaction (ops.foldl stepOp
        ⟨(ApplyTransaction s.pg aid typ amt key).2, s.ledger⟩).pg aid typ amt key =
      (.ok bal, (ops.foldl stepOp
        ⟨(ApplyTransaction s.pg aid typ amt key).2, s.ledger⟩).pg) := by
  obtain ⟨hk1, hb1⟩ := applyTransaction_ok_state s.pg aid typ amt key bal hkey h
  obtain ⟨hb2, hk2⟩ := foldl_untouched ops
    ⟨(ApplyTransaction s.pg aid typ amt key).2, s.ledger⟩ aid key hops hk1
  have hlk : lookupBalance ((ops.foldl stepOp
      ⟨(ApplyTransaction s.pg aid typ amt key).2, s.ledger⟩).pg).accounts aid =
      some bal := hb2.trans hb1
  set s2 := (ops.foldl stepOp
    ⟨(ApplyTransaction s.pg aid typ amt key).2, s.ledger⟩).pg with hs2
  simp [ApplyTransaction, hk2, hlk]

/-- C5 amended witness: deposit 100 under key k5 onto account a (balance 0),
then an intervening deposit of 7 on the other account b commits; replaying
k5 still returns the original balance_after 100 without mutation. -/
theorem replay_returns_original_without_intervening_ops_on_account_witness :
    ApplyTransaction (([Op.tx ⟨"b", "deposit", 7, "kx", 4⟩]).foldl stepOp
        ⟨(ApplyTransaction ⟨[⟨"a", "o", "USD", 0⟩, ⟨"b", "o", "USD", 5⟩], []⟩
            "a" "deposit" 100 "k5").2, []⟩).pg "a" "deposit" 100 "k5" =
      (.ok 100, (([Op.tx ⟨"b", "deposit", 7, "kx", 4⟩]).foldl stepOp
        ⟨(ApplyTransaction ⟨[⟨"a", "o", "USD", 0⟩, ⟨"b", "o", "USD", 5⟩], []⟩
            "a" "deposit" 100 "k5").2, []⟩).pg) :=
  replay_returns_original_without_intervening_ops_on_account
    ⟨⟨[⟨"a", "o", "USD", 0⟩, ⟨"b", "o", "USD", 5⟩], []⟩, []⟩
    "a" "deposit" 100 "k5" 100 [Op.tx ⟨"b", "deposit", 7, "kx", 4⟩]
    (by decide) (by decide) (by decide)
